import Mathlib

/-!
A shallow embedding of `CachedSource` (src/cached_source.rs) from the
rspack-sources repository, together with theorems settling the claims about
its caching, streaming, reclamation and equality/hash behaviour.

Strings are modelled as byte sequences (`List Nat`), matching Rust's
byte-oriented `str::len` and slicing.  Fallible operations (Rust panics:
`unwrap` on `None`, out-of-bounds `Vec` indexing, out-of-range string
slicing) return `Option`, with `none` standing for a panic.  The model is
sequential: every public operation is an atomic state transformer, which is
faithful because the Rust code serializes all subtree-consulting work behind
one `Mutex` and all cache slots are write-once.
-/

namespace CachedSourceModel

/-- Rust strings viewed as byte sequences (`str::len` counts bytes). -/
abbrev Str := List Nat

/-- `MapOptions { columns, final_source }`. -/
structure MapOptions where
  columns : Bool
  final_source : Bool
deriving DecidableEq

/-- The original-location payload of a mapping record. -/
structure OriginalLoc where
  source_index : Nat
  original_line : Nat
  original_column : Nat
  name_index : Option Nat
deriving DecidableEq

/-- A mapping record: generated position plus optional original location. -/
structure Mapping where
  generated_line : Nat
  generated_column : Nat
  original : Option OriginalLoc
deriving DecidableEq

/-- `GeneratedInfo`: the end-of-stream cursor returned by `stream_chunks`. -/
structure GeneratedInfo where
  generated_line : Nat
  generated_column : Nat
deriving DecidableEq

/-- `SourceMap { mappings, sources, sources_content, names }`. -/
structure SourceMap where
  mappings : Str
  sources : List Str
  sources_content : List Str
  names : List Str
deriving DecidableEq

/-- One callback invocation performed by the wrapped subtree's
`stream_chunks` (the events the subtree delivers to the wrapper). -/
inductive SEvent where
  | chunk (text : Option Str) (m : Mapping)
  | source (idx : Nat) (path : Str) (content : Option Str)
  | name (idx : Nat) (n : Str)
deriving DecidableEq

/-- One callback invocation delivered to the caller of the cached wrapper's
`stream_chunks`. -/
inductive OEvent where
  | chunk (text : Option Str) (m : Mapping)
  | source (idx : Nat) (path : Str) (content : Option Str)
  | name (idx : Nat) (n : Str)
deriving DecidableEq

/-- The wrapped subtree (`BoxSource`).  Its node kinds are external to this
component, so it is modelled by its observable behaviour: the text and
buffer it produces, the finished structural hash it feeds to a hasher, its
own `map`, and the event sequence plus `GeneratedInfo` of its
`stream_chunks`. -/
structure BoxSource where
  source : Str
  buffer : Str
  /-- Modelled from the spec: the subtree's structural content hash — the
  `u64` obtained by running the subtree's `Hash` impl through an `FxHasher`
  (`hash` "delegates to the subtree's own structural hash"); the hashing
  code itself is outside src/. -/
  structuralHash : Nat
  map : MapOptions → Option SourceMap
  streamChunks : MapOptions → List SEvent × GeneratedInfo

/-- Modelled from the spec: one record of the mapping serialization codec
(`crate::encoder` is not under src/).  The codec "encodes/decodes positional
mapping records to/from a compact string"; segments are produced only for
original-bearing mappings, so the drained string is empty exactly when no
encoded mapping carried original info (a raw source yields no mappings
string).  With `columns = false` the encoder drops column granularity.
Records are fixed-width so `decodeMappings` below can invert them. -/
def encodeRecord (columns : Bool) (m : Mapping) : Str :=
  match m.original with
  | none => []
  | some o =>
      [m.generated_line, if columns then m.generated_column else 0,
       o.source_index, o.original_line, o.original_column,
       if o.name_index.isSome then 1 else 0, o.name_index.getD 0]

/-- Modelled from the spec: `encoder.drain()` — the serialized mappings
string accumulated from the encoded records, in discovery order. -/
def encoderDrain (columns : Bool) (ms : List Mapping) : Str :=
  (ms.map (encodeRecord columns)).flatten

/-- Modelled from the spec: the decoding direction of the mapping codec. -/
def decodeMappings : Str → List Mapping
  | gl :: gc :: si :: ol :: oc :: hn :: n :: rest =>
      ⟨gl, gc, some ⟨si, ol, oc, if hn = 1 then some n else none⟩⟩ ::
        decodeMappings rest
  | _ => []

/-- Line/column bookkeeping: the end-of-stream cursor for a text (1-based
line = number of line feeds + 1, column = byte length of the last line). -/
def generatedInfoOf (t : Str) : GeneratedInfo :=
  ⟨t.count 10 + 1, (t.reverse.takeWhile (fun b => b ≠ 10)).length⟩

/-- Byte offsets at which each 1-based line of `t` starts. -/
def lineStarts (t : Str) : List Nat :=
  0 :: (((List.range t.length).filter (fun i => t.get? i = some 10)).map
    (fun i => i + 1))

/-- Byte offset of 1-based position (`line`, `col`) in `t`. -/
def offsetOf (t : Str) (line col : Nat) : Nat :=
  (lineStarts t).getD (line - 1) t.length + col

/-- Modelled from the spec: `stream_chunks_of_raw_source` (in
`crate::helpers`, not under src/) — the raw-text replay engine, "which
emits the whole text as a single unmapped chunk stream". -/
def streamChunksOfRawSource (t : Str) (_o : MapOptions) :
    List OEvent × GeneratedInfo :=
  ([OEvent.chunk (some t) ⟨1, 0, none⟩], generatedInfoOf t)

/-- The generated byte offsets of a decoded mapping list over `t`. -/
def mappingOffsets (t : Str) (ms : List Mapping) : List Nat :=
  ms.map (fun m => offsetOf t m.generated_line m.generated_column)

/-- Slices of `t` between consecutive offsets, the last running to the end
of `t`; each is paired with its mapping. -/
def sliceChunks (t : Str) : List (Nat × Mapping) → List OEvent
  | [] => []
  | (a, m) :: rest =>
      let b := match rest with
        | [] => t.length
        | (a2, _) :: _ => a2
      OEvent.chunk (some ((t.drop a).take (b - a))) m :: sliceChunks t rest

/-- Modelled from the spec: `stream_chunks_of_source_map` (in
`crate::helpers`, not under src/) — the map-based replay engine, which
"deterministically regenerates the exact chunk/source/name event sequence
and `GeneratedInfo`" from `(text, map)` alone: it announces the map's
sources and names, then re-slices the text at the generated positions of
the decoded mappings. -/
def streamChunksOfSourceMap (t : Str) (sm : SourceMap) (_o : MapOptions) :
    List OEvent × GeneratedInfo :=
  let ms := decodeMappings sm.mappings
  let srcEvents := (List.range sm.sources.length).map (fun i =>
    OEvent.source i (sm.sources.getD i []) (some (sm.sources_content.getD i [])))
  let nameEvents := (List.range sm.names.length).map (fun i =>
    OEvent.name i (sm.names.getD i []))
  let lead := match mappingOffsets t ms with
    | [] => [OEvent.chunk (some t) ⟨1, 0, none⟩]
    | a :: _ => if a = 0 then [] else [OEvent.chunk (some (t.take a)) ⟨1, 0, none⟩]
  (srcEvents ++ nameEvents ++ lead ++ sliceChunks t ((mappingOffsets t ms).zip ms),
   generatedInfoOf t)

/-- The state behind a `CachedSource`'s shared handles: the
mutex-protected clearable subtree plus the four cache slots.  The
`DashMap<bool, Option<SourceMap>>` is modelled by its two possible entries
(`maps_t` for key `true`, `maps_f` for key `false`); an outer `none` means
"key absent". -/
structure CState where
  inner : Option BoxSource
  cached_source : Option Str
  cached_buffer : Option Str
  cached_hash : Option Nat
  maps_t : Option (Option SourceMap)
  maps_f : Option (Option SourceMap)

/-- `CachedSource::new`: subtree present, every cache slot empty. -/
def initState (sub : BoxSource) : CState :=
  ⟨some sub, none, none, none, none, none⟩

/-- `cached_maps.get(&k)` — presence of the key is the outer `Option`. -/
def getMapCache (s : CState) (k : Bool) : Option (Option SourceMap) :=
  if k then s.maps_t else s.maps_f

/-- `cached_maps.insert(k, v)`. -/
def setMapCache (s : CState) (k : Bool) (v : Option SourceMap) : CState :=
  if k then { s with maps_t := some v } else { s with maps_f := some v }

/-- The condition tested by `try_separate`: `cached_buffer`, `cached_hash`,
the map entry for `true`, and `cached_source` are all populated. -/
def populated (s : CState) : Bool :=
  s.cached_buffer.isSome && s.cached_hash.isSome &&
    (getMapCache s true).isSome && s.cached_source.isSome

/-- `CachedSource::try_separate`: drop the subtree once all four slots are
populated (`original.take()`). -/
def trySeparate (s : CState) : CState :=
  if populated s then { s with inner := none } else s

/-- `&code[a..b]`: Rust string slicing; out of range is a panic (`none`). -/
def slice (code : Str) (a b : Nat) : Option Str :=
  if a ≤ b ∧ b ≤ code.length then some ((code.drop a).take (b - a)) else none

/-- The Rust idiom `while v.len() <= i { v.push(""); } v[i] = x;`: grow the
vector with empty-string placeholders up to index `i`, then set index `i`. -/
def listGrowSet (l : List Str) (i : Nat) (v : Str) : List Str :=
  (if l.length ≤ i then l ++ List.replicate (i + 1 - l.length) [] else l).set i v

/-- The mutable locals of `stream_and_get_source_and_map` during the fresh
traversal, plus the output events already delivered to the caller. -/
structure FreshAcc where
  code_start : Nat
  code_end : Nat
  mappings : List Mapping
  sources : List Str
  sources_content : List Str
  names : List Str
  out : List OEvent

/-- One callback invocation of the fresh-traversal wrappers in
`stream_and_get_source_and_map` (the three closures wrapping `on_chunk`,
`on_source`, `on_name`); `none` is a panic.  Faithful to the source: in the
chunk wrapper both `code_start` and `code_end` are advanced by the chunk's
length before slicing; in the source wrapper `sources_content` is grown only
when content was supplied, yet both vectors are indexed afterwards. -/
def freshStep (code : Str) (acc : FreshAcc) : SEvent → Option FreshAcc
  | SEvent.chunk (some c) m =>
      let cs := acc.code_start + c.length
      let ce := acc.code_end + c.length
      match slice code cs ce with
      | none => none
      | some t =>
          some { acc with
            code_start := cs, code_end := ce,
            mappings := acc.mappings ++ [m],
            out := acc.out ++ [OEvent.chunk (some t) m] }
  | SEvent.chunk none m =>
      some { acc with
        mappings := acc.mappings ++ [m],
        out := acc.out ++ [OEvent.chunk (some []) m] }
  | SEvent.source i p c =>
      let sources := listGrowSet acc.sources i p
      let sources_content := match c with
        | some sc => listGrowSet acc.sources_content i sc
        | none => acc.sources_content
      match sources.get? i, sources_content.get? i with
      | some pv, some cv =>
          some { acc with
            sources := sources, sources_content := sources_content,
            out := acc.out ++ [OEvent.source i pv (some cv)] }
      | _, _ => none
  | SEvent.name i n =>
      let names := listGrowSet acc.names i n
      match names.get? i with
      | some nv =>
          some { acc with names := names,
                          out := acc.out ++ [OEvent.name i nv] }
      | none => none

/-- Run the fresh-traversal wrappers over the subtree's event sequence. -/
def freshRun (code : Str) (evs : List SEvent) : Option FreshAcc :=
  evs.foldlM (freshStep code) ⟨0, 0, [], [], [], [], []⟩

/-- `CachedSource::stream_and_get_source_and_map`: initialize
`cached_source` and `cached_buffer` (the buffer from the text's bytes), run
the subtree's `stream_chunks` through the wrapping callbacks, drain the
encoder, and insert the resulting optional map at key `options.columns`.
Returns the caller-visible events, the subtree's `GeneratedInfo`, and the
updated state; `none` is a panic. -/
def streamAndGet (s : CState) (sub : BoxSource) (o : MapOptions) :
    Option (List OEvent × GeneratedInfo × CState) :=
  let code := s.cached_source.getD sub.source
  let buf := s.cached_buffer.getD code
  match freshRun code (sub.streamChunks o).1 with
  | none => none
  | some acc =>
      let ms := encoderDrain o.columns acc.mappings
      let m : Option SourceMap :=
        if ms.isEmpty then none
        else some ⟨ms, acc.sources, acc.sources_content, acc.names⟩
      some (acc.out, (sub.streamChunks o).2,
        setMapCache
          { s with cached_source := some code, cached_buffer := some buf }
          o.columns m)

/-- `Source::source` for `CachedSource`: `cached_source.get_or_init`,
unwrapping the mutex-held subtree on a miss. -/
def doSource (s : CState) : Option (Str × CState) :=
  match s.cached_source with
  | some t => some (t, s)
  | none =>
      match s.inner with
      | some sub => some (sub.source, { s with cached_source := some sub.source })
      | none => none

/-- `Source::buffer` for `CachedSource`. -/
def doBuffer (s : CState) : Option (Str × CState) :=
  match s.cached_buffer with
  | some b => some (b, s)
  | none =>
      match s.inner with
      | some sub => some (sub.buffer, { s with cached_buffer := some sub.buffer })
      | none => none

/-- `Source::size` for `CachedSource`: `self.source().len()`. -/
def doSize (s : CState) : Option (Nat × CState) :=
  (doSource s).map (fun r => (r.1.length, r.2))

/-- `Source::map` for `CachedSource`: look up `options.columns`; on a miss,
unwrap the subtree, delegate, and insert the result.  No `try_separate`. -/
def doMap (s : CState) (o : MapOptions) : Option (Option SourceMap × CState) :=
  match getMapCache s o.columns with
  | some m => some (m, s)
  | none =>
      match s.inner with
      | some sub => some (sub.map o, setMapCache s o.columns (sub.map o))
      | none => none

/-- `Hash::hash` for `CachedSource`: lock the subtree,
`cached_hash.get_or_init` (unwrapping the subtree on a miss), feed the
stored value to the caller's hasher, then `try_separate`. -/
def doHash (s : CState) : Option (Nat × CState) :=
  match s.cached_hash with
  | some h => some (h, trySeparate s)
  | none =>
      match s.inner with
      | some sub =>
          some (sub.structuralHash,
            trySeparate { s with cached_hash := some sub.structuralHash })
      | none => none

/-- `StreamChunks::stream_chunks` for `CachedSource`: on a map-cache hit
replay from the cached text (initializing it from the subtree if needed) via
the map-based or raw replay engine; on a miss run
`stream_and_get_source_and_map` on the unwrapped subtree, then
`try_separate`. -/
def doStreamChunks (s : CState) (o : MapOptions) :
    Option (List OEvent × GeneratedInfo × CState) :=
  match getMapCache s o.columns with
  | some cache =>
      match s.cached_source with
      | some code =>
          match cache with
          | some m => some ((streamChunksOfSourceMap code m o).1,
                            (streamChunksOfSourceMap code m o).2, s)
          | none => some ((streamChunksOfRawSource code o).1,
                          (streamChunksOfRawSource code o).2, s)
      | none =>
          match s.inner with
          | some sub =>
              let code := sub.source
              let s1 : CState := { s with cached_source := some code }
              match cache with
              | some m => some ((streamChunksOfSourceMap code m o).1,
                                (streamChunksOfSourceMap code m o).2, s1)
              | none => some ((streamChunksOfRawSource code o).1,
                              (streamChunksOfRawSource code o).2, s1)
          | none => none
  | none =>
      match s.inner with
      | some sub =>
          match streamAndGet s sub o with
          | none => none
          | some r => some (r.1, r.2.1, trySeparate r.2.2)
      | none => none

/-- One successful (non-panicking) public operation on the shared state. -/
inductive Step : CState → CState → Prop where
  | source {s s' : CState} {v : Str} :
      doSource s = some (v, s') → Step s s'
  | buffer {s s' : CState} {v : Str} :
      doBuffer s = some (v, s') → Step s s'
  | size {s s' : CState} {n : Nat} :
      doSize s = some (n, s') → Step s s'
  | hash {s s' : CState} {h : Nat} :
      doHash s = some (h, s') → Step s s'
  | map {s s' : CState} {m : Option SourceMap} (o : MapOptions) :
      doMap s o = some (m, s') → Step s s'
  | streamChunks {s s' : CState} {evs : List OEvent} {gi : GeneratedInfo}
      (o : MapOptions) :
      doStreamChunks s o = some (evs, gi, s') → Step s s'

/-- States reachable from a freshly constructed `CachedSource`. -/
inductive Reach (sub : BoxSource) : CState → Prop where
  | init : Reach sub (initState sub)
  | step {s s' : CState} : Reach sub s → Step s s' → Reach sub s'

/-- The chunk texts of an event sequence, in order. -/
def chunkTexts (evs : List OEvent) : List (Option Str) :=
  evs.filterMap (fun e => match e with
    | OEvent.chunk t _ => some t
    | _ => none)

/-- Concatenation of the chunk texts delivered by an event sequence. -/
def chunkConcat (evs : List OEvent) : Str :=
  (chunkTexts evs).foldr (fun t acc => t.getD [] ++ acc) []

/-- A plain subtree: text `"a"`, buffer `[98]`, hash `5`, no map, an empty
chunk stream. -/
def subPlain : BoxSource where
  source := [97]
  buffer := [98]
  structuralHash := 5
  map := fun _ => none
  streamChunks := fun _ => ([], ⟨1, 0⟩)

/-- A raw-style subtree: text `"ab"` streamed as one chunk whose mapping
carries no original location (so the drained mappings string is empty). -/
def subRaw : BoxSource where
  source := [97, 98]
  buffer := [97, 98]
  structuralHash := 2
  map := fun _ => none
  streamChunks := fun _ => ([SEvent.chunk (some [97, 98]) ⟨1, 0, none⟩], ⟨1, 2⟩)

/-- A mapped subtree: text `"ab"` streamed as one chunk whose mapping
points at source 0, line 1, column 0. -/
def subMapped : BoxSource where
  source := [97, 98]
  buffer := [97, 98]
  structuralHash := 3
  map := fun _ => none
  streamChunks := fun _ =>
    ([SEvent.chunk (some [97, 98]) ⟨1, 0, some ⟨0, 1, 0, none⟩⟩], ⟨1, 2⟩)

/-- A subtree that reports a source path (`"js"`, index 0) with no source
content. -/
def subNoContent : BoxSource where
  source := [97]
  buffer := [97]
  structuralHash := 4
  map := fun _ => none
  streamChunks := fun _ => ([SEvent.source 0 [106, 115] none], ⟨1, 1⟩)

/-- A subtree whose text is 256 zero bytes. -/
def subZeros : BoxSource where
  source := List.replicate 256 0
  buffer := List.replicate 256 0
  structuralHash := 6
  map := fun _ => none
  streamChunks := fun _ => ([], ⟨1, 0⟩)

lemma getMapCache_set_same (s : CState) (k : Bool) (v : Option SourceMap) :
    getMapCache (setMapCache s k v) k = some v := by
  cases k <;> rfl

lemma getMapCache_set_other (s : CState) (k k' : Bool) (v : Option SourceMap)
    (h : k' ≠ k) : getMapCache (setMapCache s k v) k' = getMapCache s k' := by
  cases k <;> cases k' <;> first | exact absurd rfl h | rfl

lemma setMapCache_inner (s : CState) (k : Bool) (v : Option SourceMap) :
    (setMapCache s k v).inner = s.inner := by
  cases k <;> rfl

lemma setMapCache_cached_source (s : CState) (k : Bool) (v : Option SourceMap) :
    (setMapCache s k v).cached_source = s.cached_source := by
  cases k <;> rfl

lemma setMapCache_cached_buffer (s : CState) (k : Bool) (v : Option SourceMap) :
    (setMapCache s k v).cached_buffer = s.cached_buffer := by
  cases k <;> rfl

lemma setMapCache_cached_hash (s : CState) (k : Bool) (v : Option SourceMap) :
    (setMapCache s k v).cached_hash = s.cached_hash := by
  cases k <;> rfl

lemma trySeparate_cases (s : CState) :
    (populated s = true ∧ trySeparate s = { s with inner := none }) ∨
    (populated s = false ∧ trySeparate s = s) := by
  unfold trySeparate
  cases hp : populated s
  · exact Or.inr ⟨rfl, by simp⟩
  · exact Or.inl ⟨rfl, by simp⟩

lemma populated_clear (s : CState) :
    populated { s with inner := none } = populated s := rfl

lemma trySeparate_slots (s : CState) :
    (trySeparate s).cached_source = s.cached_source ∧
    (trySeparate s).cached_buffer = s.cached_buffer ∧
    (trySeparate s).cached_hash = s.cached_hash ∧
    (∀ b, getMapCache (trySeparate s) b = getMapCache s b) := by
  rcases trySeparate_cases s with ⟨_, he⟩ | ⟨_, he⟩ <;> rw [he]
  · exact ⟨rfl, rfl, rfl, fun b => by cases b <;> rfl⟩
  · exact ⟨rfl, rfl, rfl, fun b => rfl⟩

lemma populated_trySeparate (s : CState) :
    populated (trySeparate s) = populated s := by
  rcases trySeparate_cases s with ⟨_, he⟩ | ⟨_, he⟩
  · rw [he]; rfl
  · rw [he]

lemma doSource_shape {s s' : CState} {v : Str}
    (h : doSource s = some (v, s')) :
    (s.cached_source = some v ∧ s' = s) ∨
    (s.cached_source = none ∧ s' = { s with cached_source := some v }) := by
  unfold doSource at h
  split at h
  next t heq =>
    simp only [Option.some.injEq, Prod.mk.injEq] at h
    exact Or.inl ⟨h.1 ▸ heq, h.2.symm⟩
  next heq =>
    split at h
    next sub heq2 =>
      simp only [Option.some.injEq, Prod.mk.injEq] at h
      exact Or.inr ⟨heq, by rw [← h.2, h.1]⟩
    next => exact absurd h (by simp)

lemma doBuffer_shape {s s' : CState} {v : Str}
    (h : doBuffer s = some (v, s')) :
    (s.cached_buffer = some v ∧ s' = s) ∨
    (s.cached_buffer = none ∧ s' = { s with cached_buffer := some v }) := by
  unfold doBuffer at h
  split at h
  next t heq =>
    simp only [Option.some.injEq, Prod.mk.injEq] at h
    exact Or.inl ⟨h.1 ▸ heq, h.2.symm⟩
  next heq =>
    split at h
    next sub heq2 =>
      simp only [Option.some.injEq, Prod.mk.injEq] at h
      exact Or.inr ⟨heq, by rw [← h.2, h.1]⟩
    next => exact absurd h (by simp)

lemma doSize_shape {s s' : CState} {n : Nat}
    (h : doSize s = some (n, s')) :
    ∃ v, doSource s = some (v, s') ∧ n = v.length := by
  unfold doSize at h
  cases hd : doSource s with
  | none => rw [hd] at h; simp at h
  | some r =>
      obtain ⟨v, t⟩ := r
      rw [hd] at h
      simp only [Option.map_some', Option.some.injEq, Prod.mk.injEq] at h
      exact ⟨v, by rw [h.2], h.1.symm⟩

lemma doHash_shape {s s' : CState} {hv : Nat}
    (h : doHash s = some (hv, s')) :
    ∃ x : CState, x.inner = s.inner ∧ s' = trySeparate x ∧
      x.cached_source = s.cached_source ∧ x.cached_buffer = s.cached_buffer ∧
      (∀ b, getMapCache x b = getMapCache s b) ∧ x.cached_hash = some hv ∧
      (s.cached_hash = some hv ∨ s.cached_hash = none) := by
  unfold doHash at h
  split at h
  next t heq =>
    simp only [Option.some.injEq, Prod.mk.injEq] at h
    exact ⟨s, rfl, h.2.symm, rfl, rfl, fun _ => rfl, h.1 ▸ heq,
      Or.inl (h.1 ▸ heq)⟩
  next heq =>
    split at h
    next sub heq2 =>
      simp only [Option.some.injEq, Prod.mk.injEq] at h
      refine ⟨{ s with cached_hash := some hv }, rfl, ?_, rfl, rfl,
        fun b => by cases b <;> rfl, rfl, Or.inr heq⟩
      rw [← h.2, h.1]
    next => exact absurd h (by simp)

lemma doMap_shape {s s' : CState} {o : MapOptions} {m : Option SourceMap}
    (h : doMap s o = some (m, s')) :
    (getMapCache s o.columns = some m ∧ s' = s) ∨
    (getMapCache s o.columns = none ∧ s.inner.isSome = true ∧
      s' = setMapCache s o.columns m) := by
  unfold doMap at h
  split at h
  next e heq =>
    simp only [Option.some.injEq, Prod.mk.injEq] at h
    exact Or.inl ⟨h.1 ▸ heq, h.2.symm⟩
  next heq =>
    split at h
    next sub heq2 =>
      simp only [Option.some.injEq, Prod.mk.injEq] at h
      exact Or.inr ⟨heq, by rw [heq2]; rfl, by rw [← h.2, h.1]⟩
    next => exact absurd h (by simp)

lemma doMap_entry {s s' : CState} {o : MapOptions} {m : Option SourceMap}
    (h : doMap s o = some (m, s')) : getMapCache s' o.columns = some m := by
  rcases doMap_shape h with ⟨he, rfl⟩ | ⟨_, _, rfl⟩
  · exact he
  · exact getMapCache_set_same ..

lemma streamAndGet_state {s : CState} {sub : BoxSource} {o : MapOptions}
    {r : List OEvent × GeneratedInfo × CState}
    (h : streamAndGet s sub o = some r) :
    ∃ m, r.2.2 = setMapCache
      { s with
        cached_source := some (s.cached_source.getD sub.source),
        cached_buffer :=
          some (s.cached_buffer.getD (s.cached_source.getD sub.source)) }
      o.columns m := by
  simp only [streamAndGet] at h
  split at h
  · exact absurd h (by simp)
  · simp only [Option.some.injEq] at h
    exact ⟨_, by rw [← h]⟩

lemma doStreamChunks_shape {s s' : CState} {o : MapOptions}
    {evs : List OEvent} {gi : GeneratedInfo}
    (h : doStreamChunks s o = some (evs, gi, s')) :
    ((getMapCache s o.columns).isSome = true ∧
      (s' = s ∨ (s.cached_source = none ∧ ∃ sub, s.inner = some sub ∧
        s' = { s with cached_source := some sub.source }))) ∨
    (getMapCache s o.columns = none ∧ ∃ sub, s.inner = some sub ∧ ∃ m,
      s' = trySeparate (setMapCache
        { s with
          cached_source := some (s.cached_source.getD sub.source),
          cached_buffer :=
            some (s.cached_buffer.getD (s.cached_source.getD sub.source)) }
        o.columns m)) := by
  simp only [doStreamChunks] at h
  split at h
  next cache hc =>
    refine Or.inl ⟨by rw [hc]; rfl, ?_⟩
    split at h
    next code hs =>
      split at h <;>
        · simp only [Option.some.injEq, Prod.mk.injEq] at h
          exact Or.inl h.2.2.symm
    next hs =>
      split at h
      next sub hi =>
        split at h <;>
          · simp only [Option.some.injEq, Prod.mk.injEq] at h
            exact Or.inr ⟨hs, sub, hi, h.2.2.symm⟩
      next hi => exact absurd h (by simp)
  next hc =>
    split at h
    next sub hi =>
      split at h
      next hr => exact absurd h (by simp)
      next r hr =>
        obtain ⟨m, hm⟩ := streamAndGet_state hr
        simp only [Option.some.injEq, Prod.mk.injEq] at h
        exact Or.inr ⟨hc, sub, hi, m, by rw [← h.2.2, hm]⟩
    next hi => exact absurd h (by simp)

lemma inner_eq_clear_once {s s' : CState} (h : s'.inner = s.inner) :
    (s.inner = none → s'.inner = none) ∧
    (s'.inner = none → s.inner = none ∨ populated s' = true) :=
  ⟨fun hn => h.trans hn, fun hn => Or.inl (h.symm.trans hn)⟩

lemma trySeparate_clear_once {s x : CState} (hx : x.inner = s.inner) :
    (s.inner = none → (trySeparate x).inner = none) ∧
    ((trySeparate x).inner = none →
      s.inner = none ∨ populated (trySeparate x) = true) := by
  rcases trySeparate_cases x with ⟨hp, he⟩ | ⟨hp, he⟩
  · rw [he]
    exact ⟨fun _ => rfl, fun _ => Or.inr (by rw [populated_clear]; exact hp)⟩
  · rw [he]
    exact inner_eq_clear_once hx

lemma trySeparate_populated_clears (x : CState)
    (hp : populated (trySeparate x) = true) : (trySeparate x).inner = none := by
  rcases trySeparate_cases x with ⟨_, he⟩ | ⟨hf, he⟩
  · rw [he]
  · rw [populated_trySeparate, hf] at hp
    cases hp

lemma getMapCache_update2 (s : CState) (a b : Option Str) (k : Bool) :
    getMapCache { s with cached_source := a, cached_buffer := b } k =
      getMapCache s k := by
  cases k <;> rfl

/-- Slot monotonicity: every value already stored in a cache slot is still
stored, unchanged, in the later state. -/
def Mono (s s' : CState) : Prop :=
  (∀ v, s.cached_source = some v → s'.cached_source = some v) ∧
  (∀ v, s.cached_buffer = some v → s'.cached_buffer = some v) ∧
  (∀ v, s.cached_hash = some v → s'.cached_hash = some v) ∧
  (∀ b e, getMapCache s b = some e → getMapCache s' b = some e)

lemma mono_rfl (s : CState) : Mono s s :=
  ⟨fun _ h => h, fun _ h => h, fun _ h => h, fun _ _ h => h⟩

lemma mono_trans {s t u : CState} (h1 : Mono s t) (h2 : Mono t u) :
    Mono s u :=
  ⟨fun v h => h2.1 v (h1.1 v h), fun v h => h2.2.1 v (h1.2.1 v h),
   fun v h => h2.2.2.1 v (h1.2.2.1 v h),
   fun b e h => h2.2.2.2 b e (h1.2.2.2 b e h)⟩

lemma mono_set_source {s : CState} {v : Str} (h : s.cached_source = none) :
    Mono s { s with cached_source := some v } := by
  refine ⟨fun w hw => ?_, fun w hw => hw, fun w hw => hw, fun b e he => ?_⟩
  · rw [h] at hw; cases hw
  · cases b <;> exact he

lemma mono_set_buffer {s : CState} {v : Str} (h : s.cached_buffer = none) :
    Mono s { s with cached_buffer := some v } := by
  refine ⟨fun w hw => hw, fun w hw => ?_, fun w hw => hw, fun b e he => ?_⟩
  · rw [h] at hw; cases hw
  · cases b <;> exact he

lemma mono_insert_map {s : CState} {k : Bool} {v : Option SourceMap}
    (h : getMapCache s k = none) : Mono s (setMapCache s k v) := by
  refine ⟨fun w hw => ?_, fun w hw => ?_, fun w hw => ?_, fun b e he => ?_⟩
  · rw [setMapCache_cached_source]; exact hw
  · rw [setMapCache_cached_buffer]; exact hw
  · rw [setMapCache_cached_hash]; exact hw
  · by_cases hb : b = k
    · subst hb; rw [h] at he; cases he
    · rw [getMapCache_set_other s k b v hb]; exact he

lemma mono_trySeparate (x : CState) : Mono x (trySeparate x) := by
  obtain ⟨h1, h2, h3, h4⟩ := trySeparate_slots x
  exact ⟨fun v hv => h1.trans hv, fun v hv => h2.trans hv,
    fun v hv => h3.trans hv, fun b e he => (h4 b).trans he⟩

lemma mono_streamAndGet_pre (s : CState) (sub : BoxSource) :
    Mono s
      { s with
        cached_source := some (s.cached_source.getD sub.source),
        cached_buffer :=
          some (s.cached_buffer.getD (s.cached_source.getD sub.source)) } := by
  refine ⟨fun v hv => ?_, fun v hv => ?_, fun v hv => hv, fun b e he => ?_⟩
  · show some (s.cached_source.getD sub.source) = some v
    rw [hv, Option.getD_some]
  · show some (s.cached_buffer.getD (s.cached_source.getD sub.source)) = some v
    rw [hv, Option.getD_some]
  · rw [getMapCache_update2]; exact he

lemma step_mono {s s' : CState} (hstep : Step s s') : Mono s s' := by
  cases hstep with
  | source h =>
      rcases doSource_shape h with ⟨_, rfl⟩ | ⟨hn, rfl⟩
      · exact mono_rfl _
      · exact mono_set_source hn
  | buffer h =>
      rcases doBuffer_shape h with ⟨_, rfl⟩ | ⟨hn, rfl⟩
      · exact mono_rfl _
      · exact mono_set_buffer hn
  | size h =>
      obtain ⟨v, hsrc, _⟩ := doSize_shape h
      rcases doSource_shape hsrc with ⟨_, rfl⟩ | ⟨hn, rfl⟩
      · exact mono_rfl _
      · exact mono_set_source hn
  | hash h =>
      obtain ⟨x, _, rfl, hsrc, hbuf, hmaps, hh, hor⟩ := doHash_shape h
      refine mono_trans ?_ (mono_trySeparate x)
      refine ⟨fun v hv => hsrc.trans hv, fun v hv => hbuf.trans hv,
        fun v hv => ?_, fun b e he => (hmaps b).trans he⟩
      rcases hor with hsome | hnone
      · exact (hsome.symm.trans hv) ▸ hh
      · rw [hnone] at hv; cases hv
  | map o h =>
      rcases doMap_shape h with ⟨_, rfl⟩ | ⟨hn, _, rfl⟩
      · exact mono_rfl _
      · exact mono_insert_map hn
  | streamChunks o h =>
      rcases doStreamChunks_shape h with
        ⟨_, rfl | ⟨hn, sub, hi, rfl⟩⟩ | ⟨hc, sub, hi, m, rfl⟩
      · exact mono_rfl _
      · exact mono_set_source hn
      · refine mono_trans (mono_trans (mono_streamAndGet_pre s sub)
          (mono_insert_map ?_)) (mono_trySeparate _)
        rw [getMapCache_update2]
        exact hc

lemma star_mono {s s' : CState} (h : Relation.ReflTransGen Step s s') :
    Mono s s' := by
  induction h with
  | refl => exact mono_rfl _
  | tail _ hstep ih => exact mono_trans ih (step_mono hstep)

lemma doSource_cached {s s' : CState} {v : Str}
    (h : doSource s = some (v, s')) : s'.cached_source = some v := by
  rcases doSource_shape h with ⟨he, rfl⟩ | ⟨_, rfl⟩
  · exact he
  · rfl

lemma doBuffer_cached {s s' : CState} {v : Str}
    (h : doBuffer s = some (v, s')) : s'.cached_buffer = some v := by
  rcases doBuffer_shape h with ⟨he, rfl⟩ | ⟨_, rfl⟩
  · exact he
  · rfl

lemma doSource_of_cached {s : CState} {v : Str}
    (h : s.cached_source = some v) : doSource s = some (v, s) := by
  unfold doSource
  rw [h]

lemma doBuffer_of_cached {s : CState} {v : Str}
    (h : s.cached_buffer = some v) : doBuffer s = some (v, s) := by
  unfold doBuffer
  rw [h]

lemma doMap_of_cached {s : CState} {o : MapOptions} {m : Option SourceMap}
    (h : getMapCache s o.columns = some m) : doMap s o = some (m, s) := by
  unfold doMap
  rw [h]

/-- C2: the fresh-traversal path does not re-slice the cached text
correctly: on a subtree streaming the single chunk `"ab"`, the wrapper
advances both byte cursors before slicing, so the emitted chunk text is
empty and the concatenation of emitted texts (`""`) differs from the cached
full text (`"ab"`). -/
theorem c2_fresh_chunks_not_resliced :
    ∃ evs gi s' c,
      doStreamChunks (initState subMapped) ⟨true, true⟩ = some (evs, gi, s') ∧
      s'.cached_source = some c ∧ chunkConcat evs ≠ c := by
  exact ⟨_, _, _, _, rfl, rfl, by decide⟩

/-- C1: the fresh-traversal event sequence differs from the later replay
event sequence with the same options: on a subtree streaming the single
unmapped chunk `"ab"`, the first `stream_chunks` call emits the chunk text
`""` (cursor slip) while the second call replays the cached text `"ab"`. -/
theorem c1_fresh_replay_not_equivalent :
    ∃ e1 g1 s1 e2 g2 s2,
      doStreamChunks (initState subRaw) ⟨true, true⟩ = some (e1, g1, s1) ∧
      doStreamChunks s1 ⟨true, true⟩ = some (e2, g2, s2) ∧
      chunkTexts e1 ≠ chunkTexts e2 := by
  exact ⟨_, _, _, _, _, _, rfl, rfl, by decide⟩

/-- C3: after `source()`, `buffer()`, `map(columns = true)` and `hash()`
have been invoked the subtree handle is cleared, yet the subsequent query
`map(columns = false)` is a cache miss and panics on the unwrap of the
cleared handle (`none`), instead of being served from cache. -/
theorem c3_cleared_handle_reached_by_map :
    ∃ s : CState, Reach subPlain s ∧ s.inner = none ∧
      doMap s ⟨false, true⟩ = none := by
  refine ⟨⟨none, some [97], some [98], some 5, some none, none⟩, ?_, rfl, rfl⟩
  exact Reach.step
    (Reach.step
      (Reach.step (Reach.step Reach.init (Step.source rfl)) (Step.buffer rfl))
      (Step.map ⟨true, true⟩ rfl))
    (Step.hash rfl)

/-- C4 counterexample: `text()`, `buffer()` and `map()` do not attempt
reclamation, so calling `hash()` first and then `source()`, `buffer()`,
`map(columns = true)` reaches a state in which all four cache slots are
populated yet the subtree handle is still present. -/
theorem c4_counterexample_no_reclamation :
    ∃ s : CState, Reach subPlain s ∧ populated s = true ∧
      s.inner.isSome = true := by
  refine ⟨⟨some subPlain, some [97], some [98], some 5, some none, none⟩,
    ?_, rfl, rfl⟩
  exact Reach.step
    (Reach.step
      (Reach.step (Reach.step Reach.init (Step.hash rfl)) (Step.source rfl))
      (Step.buffer rfl))
    (Step.map ⟨true, true⟩ rfl)

/-- C10: the `on_source` wrapper reads `sources_content` out of bounds when
the subtree reports a not-yet-seen source index with no source content: on
a subtree emitting the single source event (index 0, `"js"`, no content),
the fresh-traversal `stream_chunks` call panics (`none`). -/
theorem c10_on_source_out_of_bounds :
    doStreamChunks (initState subNoContent) ⟨true, true⟩ = none := rfl

/-- C5: at every step of a `CachedSource`'s lifetime the subtree handle is
cleared at most once — a cleared handle stays cleared — and a step that
clears it ends in a state where the text, buffer and hash slots and the map
entry for `columns = true` are all populated. -/
theorem c5_subtree_cleared_at_most_once (s s' : CState) (hstep : Step s s') :
    (s.inner = none → s'.inner = none) ∧
    (s'.inner = none → s.inner = none ∨ populated s' = true) := by
  cases hstep with
  | source h =>
      rcases doSource_shape h with ⟨_, rfl⟩ | ⟨_, rfl⟩ <;>
        exact inner_eq_clear_once rfl
  | buffer h =>
      rcases doBuffer_shape h with ⟨_, rfl⟩ | ⟨_, rfl⟩ <;>
        exact inner_eq_clear_once rfl
  | size h =>
      obtain ⟨v, hsrc, _⟩ := doSize_shape h
      rcases doSource_shape hsrc with ⟨_, rfl⟩ | ⟨_, rfl⟩ <;>
        exact inner_eq_clear_once rfl
  | hash h =>
      obtain ⟨x, hx, rfl, -, -, -, -, -⟩ := doHash_shape h
      exact trySeparate_clear_once hx
  | map o h =>
      rcases doMap_shape h with ⟨_, rfl⟩ | ⟨_, _, rfl⟩
      · exact inner_eq_clear_once rfl
      · exact inner_eq_clear_once (setMapCache_inner ..)
  | streamChunks o h =>
      rcases doStreamChunks_shape h with
        ⟨_, rfl | ⟨_, sub, hi, rfl⟩⟩ | ⟨_, sub, hi, m, rfl⟩
      · exact inner_eq_clear_once rfl
      · exact inner_eq_clear_once rfl
      · exact trySeparate_clear_once (by rw [setMapCache_inner])

/-- The state after `source()` on a fresh `CachedSource` over `subPlain`. -/
def stPlainSourced : CState :=
  ⟨some subPlain, some [97], none, none, none, none⟩

/-- Witness for C5 at the concrete step `source()` from a fresh state. -/
theorem c5_witness :
    ((initState subPlain).inner = none → stPlainSourced.inner = none) ∧
    (stPlainSourced.inner = none →
      (initState subPlain).inner = none ∨ populated stPlainSourced = true) :=
  c5_subtree_cleared_at_most_once (initState subPlain) stPlainSourced
    (Step.source rfl)

/-- C6: `text()`, `buffer()`, `size()` and `map(options)` are idempotent:
whatever value a call returned, any later call on any later reachable state
(any options with the same `columns` for `map`) returns the same value and
leaves the state unchanged, because each slot, once written, is never
overwritten or cleared. -/
theorem c6_idempotent_queries (s s1 t : CState)
    (hstar : Relation.ReflTransGen Step s1 t) :
    (∀ v, doSource s = some (v, s1) → doSource t = some (v, t)) ∧
    (∀ v, doBuffer s = some (v, s1) → doBuffer t = some (v, t)) ∧
    (∀ n, doSize s = some (n, s1) → doSize t = some (n, t)) ∧
    (∀ o o2 m, (o2 : MapOptions).columns = (o : MapOptions).columns →
      doMap s o = some (m, s1) → doMap t o2 = some (m, t)) := by
  have hmono := star_mono hstar
  refine ⟨fun v h => ?_, fun v h => ?_, fun n h => ?_,
    fun o o2 m hcol h => ?_⟩
  · exact doSource_of_cached (hmono.1 v (doSource_cached h))
  · exact doBuffer_of_cached (hmono.2.1 v (doBuffer_cached h))
  · obtain ⟨v, hsrc, rfl⟩ := doSize_shape h
    have hs := doSource_of_cached (hmono.1 v (doSource_cached hsrc))
    unfold doSize
    rw [hs]
    rfl
  · refine doMap_of_cached ?_
    rw [hcol]
    exact hmono.2.2.2 o.columns m (doMap_entry h)

/-- The state after `map({columns: true})` on a fresh `CachedSource`. -/
def stPlainMapped : CState :=
  ⟨some subPlain, none, none, none, some none, none⟩

/-- Witness for C6: repeated `source()` and a `map` differing only in
`final_source` return the first stored values. -/
theorem c6_witness :
    doSource stPlainSourced = some ([97], stPlainSourced) ∧
    doMap stPlainMapped ⟨true, false⟩ = some (none, stPlainMapped) :=
  ⟨(c6_idempotent_queries (initState subPlain) stPlainSourced stPlainSourced
      Relation.ReflTransGen.refl).1 [97] rfl,
   (c6_idempotent_queries (initState subPlain) stPlainMapped stPlainMapped
      Relation.ReflTransGen.refl).2.2.2 ⟨true, true⟩ ⟨true, false⟩ none
      rfl rfl⟩

/-- C7: the map cache is keyed only by `columns`: a second `map()` call
agreeing on `columns` (whatever its `final_source`) returns the already
cached entry and changes nothing, while two calls differing in `columns`
populate two independent entries, neither overwriting the other. -/
theorem c7_map_cache_keyed_by_columns :
    (∀ (s s1 s2 : CState) (o1 o2 : MapOptions) m1 m2,
      o1.columns = o2.columns →
      doMap s o1 = some (m1, s1) → doMap s1 o2 = some (m2, s2) →
      m2 = m1 ∧ s2 = s1) ∧
    (∀ (s s1 s2 : CState) (o1 o2 : MapOptions) m1 m2,
      o1.columns ≠ o2.columns →
      doMap s o1 = some (m1, s1) → doMap s1 o2 = some (m2, s2) →
      getMapCache s2 o1.columns = some m1 ∧
      getMapCache s2 o2.columns = some m2) := by
  constructor
  · intro s s1 s2 o1 o2 m1 m2 hcol h1 h2
    have hentry : getMapCache s1 o2.columns = some m1 := by
      rw [← hcol]
      exact doMap_entry h1
    rw [doMap_of_cached hentry] at h2
    simp only [Option.some.injEq, Prod.mk.injEq] at h2
    exact ⟨h2.1.symm, h2.2.symm⟩
  · intro s s1 s2 o1 o2 m1 m2 hcol h1 h2
    have hentry1 := doMap_entry h1
    refine ⟨?_, doMap_entry h2⟩
    rcases doMap_shape h2 with ⟨_, rfl⟩ | ⟨_, _, rfl⟩
    · exact hentry1
    · rw [getMapCache_set_other s1 o2.columns o1.columns m2 hcol]
      exact hentry1

/-- The state with both map-cache entries populated on `subPlain`. -/
def stPlainBothMaps : CState :=
  ⟨some subPlain, none, none, none, some none, some none⟩

/-- Witness for C7 at concrete `map` calls. -/
theorem c7_witness :
    ((none : Option SourceMap) = none ∧ stPlainMapped = stPlainMapped) ∧
    (getMapCache stPlainBothMaps true = some none ∧
      getMapCache stPlainBothMaps false = some none) :=
  ⟨(c7_map_cache_keyed_by_columns).1 (initState subPlain) stPlainMapped
      stPlainMapped ⟨true, true⟩ ⟨true, false⟩ none none rfl rfl rfl,
   (c7_map_cache_keyed_by_columns).2 stPlainMapped stPlainMapped
      stPlainBothMaps ⟨true, true⟩ ⟨false, true⟩ none none (by decide)
      rfl rfl⟩

/-- C4 (amended): reclamation is attempted only by `hash()` and the
fresh-traversal `stream_chunks` path; `text()`, `buffer()` and `map()`
never change the subtree handle, while immediately after `hash()` or a
fresh `stream_chunks` a fully populated cache implies the handle is
cleared. -/
theorem c4_amended_reclamation (s : CState) :
    (∀ v s', doSource s = some (v, s') → s'.inner = s.inner) ∧
    (∀ v s', doBuffer s = some (v, s') → s'.inner = s.inner) ∧
    (∀ o m s', doMap s o = some (m, s') → s'.inner = s.inner) ∧
    (∀ hv s', doHash s = some (hv, s') → populated s' = true →
      s'.inner = none) ∧
    (∀ o evs gi s', getMapCache s (o : MapOptions).columns = none →
      doStreamChunks s o = some (evs, gi, s') → populated s' = true →
      s'.inner = none) := by
  refine ⟨fun v s' h => ?_, fun v s' h => ?_, fun o m s' h => ?_,
    fun hv s' h hp => ?_, fun o evs gi s' hc h hp => ?_⟩
  · rcases doSource_shape h with ⟨_, rfl⟩ | ⟨_, rfl⟩ <;> rfl
  · rcases doBuffer_shape h with ⟨_, rfl⟩ | ⟨_, rfl⟩ <;> rfl
  · rcases doMap_shape h with ⟨_, rfl⟩ | ⟨_, _, rfl⟩
    · rfl
    · exact setMapCache_inner ..
  · obtain ⟨x, -, rfl, -, -, -, -, -⟩ := doHash_shape h
    exact trySeparate_populated_clears x hp
  · rcases doStreamChunks_shape h with ⟨hs, -⟩ | ⟨-, sub, hi, m, rfl⟩
    · rw [hc] at hs
      cases hs
    · exact trySeparate_populated_clears _ hp

/-- A state with everything but the hash populated. -/
def stPreHash : CState :=
  ⟨some subPlain, some [97], some [98], none, some none, none⟩

/-- `stPreHash` after `hash()`: fully populated, handle cleared. -/
def stPostHash : CState :=
  ⟨none, some [97], some [98], some 5, some none, none⟩

/-- A state over `subMapped` with only the hash populated. -/
def stPreStream : CState :=
  ⟨some subMapped, none, none, some 9, none, none⟩

/-- `stPreStream` after a fresh `stream_chunks({columns: true})`. -/
def stPostStream : CState :=
  ⟨none, some [97, 98], some [97, 98], some 9,
   some (some ⟨[1, 0, 0, 1, 0, 0, 0], [], [], []⟩), none⟩

/-- Witness for the amended C4 at concrete calls. -/
theorem c4_amended_witness :
    stPlainSourced.inner = (initState subPlain).inner ∧
    stPostHash.inner = none ∧ stPostStream.inner = none :=
  ⟨(c4_amended_reclamation (initState subPlain)).1 [97] stPlainSourced rfl,
   (c4_amended_reclamation stPreHash).2.2.2.1 5 stPostHash rfl rfl,
   (c4_amended_reclamation stPreStream).2.2.2.2 ⟨true, true⟩
     [OEvent.chunk (some []) ⟨1, 0, some ⟨0, 1, 0, none⟩⟩] ⟨1, 2⟩
     stPostStream rfl rfl rfl⟩

/-- C9: `size()` is exactly the byte length of the cached `text()` — it has
no storage of its own and forces the text computation: after any successful
`size()` call the text slot is populated with a text whose byte length is
the returned size, and `source()`/`size()` reproduce both. -/
theorem c9_size_is_text_byte_length (s : CState) (n : Nat) (s' : CState)
    (h : doSize s = some (n, s')) :
    ∃ t, s'.cached_source = some t ∧ n = t.length ∧
      doSource s' = some (t, s') ∧ doSize s' = some (t.length, s') := by
  obtain ⟨v, hsrc, rfl⟩ := doSize_shape h
  have hc := doSource_cached hsrc
  have hs := doSource_of_cached hc
  refine ⟨v, hc, rfl, hs, ?_⟩
  unfold doSize
  rw [hs]
  rfl

/-- The state after `size()` on a fresh `CachedSource` over 256 zero
bytes. -/
def stZeros : CState :=
  ⟨some subZeros, some (List.replicate 256 0), none, none, none, none⟩

set_option maxRecDepth 4096 in
/-- Witness for C9: a wrapped text of 256 zero bytes has size 256, and the
`size()` call on the empty cache forced the text computation. -/
theorem c9_witness :
    doSize (initState subZeros) = some (256, stZeros) ∧
    ∃ t, stZeros.cached_source = some t ∧ 256 = t.length ∧
      doSource stZeros = some (t, stZeros) ∧
      doSize stZeros = some (t.length, stZeros) :=
  ⟨rfl, c9_size_is_text_byte_length (initState subZeros) 256 stZeros rfl⟩

/-- A `CachedSource` value handed to callers: its address (what
`std::ptr::eq` compares) plus the shared cache state behind its `Arc`
fields; `clone` allocates a fresh address sharing the same state. -/
structure CachedSourceInst where
  addr : Nat
  st : CState

/-- `PartialEq for CachedSource`: `std::ptr::eq(self, other)`. -/
def ptrEq (a b : CachedSourceInst) : Bool := a.addr == b.addr

/-- `Clone for CachedSource`: fresh address, every `Arc` shared. -/
def cloneSource (a : CachedSourceInst) (fresh : Nat) : CachedSourceInst :=
  ⟨fresh, a.st⟩

/-- The value `Hash for CachedSource` feeds to the caller's hasher: the
`cached_hash` slot initialized from the subtree's structural hash. -/
def hashValue (a : CachedSourceInst) : Option Nat :=
  (doHash a.st).map Prod.fst

/-- C8: equality of `CachedSource` is pointer identity while its hash is
content-based — the wrapped subtree's structural hash — so a clone, or any
distinct instance wrapping content with the same structural hash, is
unequal to the original yet hash-equal. -/
theorem c8_identity_eq_content_hash (a b : CachedSourceInst)
    (subA subB : BoxSource) :
    (ptrEq a b = true ↔ a.addr = b.addr) ∧
    (∀ fresh, fresh ≠ a.addr →
      ptrEq (cloneSource a fresh) a = false ∧
      hashValue (cloneSource a fresh) = hashValue a) ∧
    (a.st = initState subA → hashValue a = some subA.structuralHash) ∧
    (a.st = initState subA → b.st = initState subB →
      subA.structuralHash = subB.structuralHash → a.addr ≠ b.addr →
      ptrEq a b = false ∧ hashValue a = hashValue b) := by
  refine ⟨beq_iff_eq, fun fresh hf => ⟨?_, rfl⟩, fun ha => ?_,
    fun ha hb hh hab => ⟨?_, ?_⟩⟩
  · exact beq_eq_false_iff_ne.mpr hf
  · rw [hashValue, ha]
    rfl
  · exact beq_eq_false_iff_ne.mpr hab
  · rw [hashValue, hashValue, ha, hb]
    show some subA.structuralHash = some subB.structuralHash
    rw [hh]

/-- Witness for C8 at two concrete instances over the same subtree. -/
theorem c8_witness :
    ptrEq ⟨0, initState subPlain⟩ ⟨1, initState subPlain⟩ = false ∧
    hashValue ⟨0, initState subPlain⟩ = hashValue ⟨1, initState subPlain⟩ ∧
    hashValue ⟨0, initState subPlain⟩ = some subPlain.structuralHash :=
  ⟨((c8_identity_eq_content_hash ⟨0, initState subPlain⟩
      ⟨1, initState subPlain⟩ subPlain subPlain).2.2.2 rfl rfl rfl
      (by decide)).1,
   ((c8_identity_eq_content_hash ⟨0, initState subPlain⟩
      ⟨1, initState subPlain⟩ subPlain subPlain).2.2.2 rfl rfl rfl
      (by decide)).2,
   (c8_identity_eq_content_hash ⟨0, initState subPlain⟩
      ⟨1, initState subPlain⟩ subPlain subPlain).2.2.1 rfl⟩

end CachedSourceModel
